import Mathlib

/-!
# Verification of the vert-reservation availability/overlap engine

Shallow embedding of the engine logic of `src/app.py` (a Streamlit table-booking
manager): the day filter and schedule grid of tab 2, the slot generation loop,
the comma-joined multi-table field written by `add_reservation`, the status-diff
loop behind the SAVE CHANGES button, and `update_status_batch`.

Modeling conventions:
* Timestamps are minutes since an epoch (`Nat`); pandas `NaT` (a timestamp that
  failed `pd.to_datetime(..., errors='coerce')`) is `none`.  The calendar date of
  a timestamp is `t / 1440`; a view date is a day index.  Comparisons against
  `NaT` are `false`, exactly as in pandas.
* A raw sheet record (`Row`) carries the eight columns
  `Table, Customer Name, Start, End, Status, ID, Notes, Pax`.  The `Table`
  column holds the raw string, which for form-created rows is the `", "`-join of
  the selected catalog tables (`add_reservation`).
* `df.str.contains(tbl, na=False)` is literal substring containment
  (`listHasSub`): every catalog name is free of regex metacharacters, so the
  regex semantics of `str.contains` coincide with substring search here.
* Data frames are lists of rows; boolean-mask filtering is `List.filter`, which
  preserves the stable input order, as pandas does.
-/

structure Row where
  table : String
  customerName : String
  start : Option Nat
  endTime : Option Nat
  status : String
  id : String
  notes : String
  pax : Nat
  deriving Repr, DecidableEq

def minutesPerDay : Nat := 1440

/-- Calendar date (day index) of a timestamp, `Start.dt.date`. -/
def dateOf (t : Nat) : Nat := t / minutesPerDay

/-- `series.dt.date == view_date`: `false` on `NaT`. -/
def dateEq : Option Nat → Nat → Bool
  | none, _ => false
  | some t, d => dateOf t == d

/-- `series <= t_slot`: `false` on `NaT`. -/
def dtLe : Option Nat → Nat → Bool
  | none, _ => false
  | some a, b => decide (a ≤ b)

/-- `series > t_slot`: `false` on `NaT`. -/
def dtGt : Option Nat → Nat → Bool
  | none, _ => false
  | some a, b => decide (b < a)

/-- Tab 2 day mask: `(df['Start'].dt.date == view_date) & (df['Status'] != 'Cancelled')`. -/
def dayMask (r : Row) (viewDate : Nat) : Bool :=
  dateEq r.start viewDate && !(r.status == "Cancelled")

/-- `df_day = df.loc[mask]`. -/
def dfDay (df : List Row) (viewDate : Nat) : List Row :=
  df.filter (fun r => dayMask r viewDate)

/-- The while-loop of tab 2, fuel-indexed so that it is structurally recursive:
`while current_t <= end_t: append; current_t += 30min`.  The fuel
`endT + 1 - cur` given to it by `genSlots` always suffices, so the fuel encoding
is an implementation detail of the embedding, not a semantic bound. -/
def genSlotsAux : Nat → Nat → Nat → List Nat
  | 0, _, _ => []
  | fuel + 1, cur, endT => if cur ≤ endT then cur :: genSlotsAux fuel (cur + 30) endT else []

/-- The slot-generation loop of tab 2. -/
def genSlots (cur endT : Nat) : List Nat := genSlotsAux (endT + 1 - cur) cur endT

/-- `datetime.combine(view_date, time(10, 0))`. -/
def slotStart (viewDate : Nat) : Nat := viewDate * minutesPerDay + 600

/-- `datetime.combine(view_date, time(22, 0))`. -/
def slotEnd (viewDate : Nat) : Nat := viewDate * minutesPerDay + 1320

/-- `time_slots` of the viewed day. -/
def timeSlots (viewDate : Nat) : List Nat :=
  genSlots (slotStart viewDate) (slotEnd viewDate)

/-- `all_tables = [f"Table {i}" for i in range(1, 9)] + ["Outdoor", "VIP"]`. -/
def allTables : List String :=
  ((List.range 8).map (fun i => "Table " ++ toString (i + 1))) ++ ["Outdoor", "VIP"]

/-- Does `pat` occur at the head of `s`? -/
def listStartsWith : List Char → List Char → Bool
  | [], _ => true
  | _ :: _, [] => false
  | a :: as, b :: bs => a == b && listStartsWith as bs

/-- Does `pat` occur as a contiguous substring of `s`? -/
def listHasSub (pat s : List Char) : Bool :=
  match s with
  | [] => pat.isEmpty
  | _ :: rest => listStartsWith pat s || listHasSub pat rest

/-- `s.str.contains(pat, na=False)` for the literal catalog names of this app. -/
def strHasSub (s pat : String) : Bool := listHasSub pat.data s.data

/-- `", ".join(payload["Table"])` in `add_reservation`. -/
def joinTables : List String → String
  | [] => ""
  | [t] => t
  | t :: ts => t ++ ", " ++ joinTables ts

/-- The row predicate of `res_match` in the tab-2 grid loop. -/
def cellMatches (r : Row) (tbl : String) (tSlot : Nat) : Bool :=
  strHasSub r.table tbl && dtLe r.start tSlot && dtGt r.endTime tSlot

/-- `res_match = df_day[(Table contains tbl) & (Start <= t_slot) & (End > t_slot)]`. -/
def resMatch (dfDayRows : List Row) (tbl : String) (tSlot : Nat) : List Row :=
  dfDayRows.filter (fun r => cellMatches r tbl tSlot)

/-- Hover text `f"{cust_name} ({pax_num} Pax)"`. -/
def hoverText (r : Row) : String :=
  r.customerName ++ " (" ++ toString r.pax ++ " Pax)"

/-- One grid cell: `(is_booked, hover_txt)`; occupant is `res_match.iloc[0]`. -/
def cellOf (df : List Row) (viewDate : Nat) (tbl : String) (tSlot : Nat) : Nat × String :=
  match resMatch (dfDay df viewDate) tbl tSlot with
  | [] => (0, "Available")
  | r :: _ => (1, hoverText r)

/-- The full `z_data`/`text_data` grid, rows in `all_tables` order, columns in
`time_slots` order. -/
def scheduleGrid (df : List Row) (viewDate : Nat) : List (List (Nat × String)) :=
  allTables.map (fun tbl => (timeSlots viewDate).map (fun s => cellOf df viewDate tbl s))

/-- Status-manager listing mask: `df['Start'].dt.date == view_date`. -/
def maskAll (r : Row) (viewDate : Nat) : Bool := dateEq r.start viewDate

/-- `sort_values("Start")` comparison: ascending `Start`, `NaT` last. -/
def startLe (a b : Row) : Bool :=
  match a.start, b.start with
  | none, _ => false
  | some _, none => true
  | some x, some y => decide (x ≤ y)

def insertSorted (r : Row) : List Row → List Row
  | [] => [r]
  | x :: xs => if startLe r x then r :: x :: xs else x :: insertSorted r xs

def sortByStart : List Row → List Row
  | [] => []
  | x :: xs => insertSorted x (sortByStart xs)

/-- `df_all = df.loc[mask_all].copy().sort_values("Start")`: the day's listing
shown in the Status Manager editor. -/
def dfAll (df : List Row) (viewDate : Nat) : List Row :=
  sortByStart (df.filter (fun r => maskAll r viewDate))

/-- `df.loc[df['ID'] == row['ID'], 'Status'].values[0]`: status of the first
baseline row with the given id, `none` when the lookup raises `IndexError`. -/
def lookupStatus (df : List Row) (rid : String) : Option String :=
  (df.find? (fun r => r.id == rid)).map (fun r => r.status)

/-- Python dict assignment `changes[id] = status`: overwrite in place or append. -/
def upsert (m : List (String × String)) (k v : String) : List (String × String) :=
  if m.any (fun p => p.1 == k) then
    m.map (fun p => if p.1 == k then (k, v) else p)
  else m ++ [(k, v)]

/-- The SAVE CHANGES diff loop: for each edited row, look up the baseline status
by id (an absent id raises `IndexError`, aborting the computation: `none`) and
record `changes[row.ID] = row.Status` when the status differs. -/
def diffChanges (df : List Row) (edited : List Row) : Option (List (String × String)) :=
  edited.foldl
    (fun acc row =>
      match acc with
      | none => none
      | some changes =>
        match lookupStatus df row.id with
        | none => none
        | some orig =>
          if row.status == orig then some changes else some (upsert changes row.id row.status))
    (some [])

/-- `{r with status := v}` at index `i`, the effect of one `'range': f'E{row_num}'`
update (column E is the Status column; the header row offset of
`id_list.index(row_id) + 1` cancels against gspread's 1-based rows). -/
def setStatusAt (sheet : List Row) (i : Nat) (v : String) : List Row :=
  match sheet[i]? with
  | none => sheet
  | some r => sheet.set i { r with status := v }

/-- Python's `id_list.index(row_id)`: position of the first occurrence, `none`
when `index` raises `ValueError`. -/
def idIndexOf (idList : List String) (k : String) : Option Nat :=
  match idList with
  | [] => none
  | x :: xs => if x == k then some 0 else (idIndexOf xs k).map (fun i => i + 1)

/-- `update_status_batch`: read the id column once, collect one column-E update
per change whose id is found (`except: continue` silently skips absent ids),
then apply the batch. -/
def update_status_batch (sheet : List Row) (changes : List (String × String)) : List Row :=
  let idList := sheet.map (fun r => r.id)
  let updates := changes.filterMap (fun c => (idIndexOf idList c.1).map (fun i => (i, c.2)))
  updates.foldl (fun sh u => setStatusAt sh u.1 u.2) sheet

/-- Modelled from the spec: the aggregate metrics triple
(confirmed, totalCovers, cancelled) of §4.2 — "count of Reserved reservations on
a day, sum of party sizes of Reserved reservations, count of Cancelled
reservations — all computed by filtering to the day and status".  No metrics
computation exists in `src/app.py`; the spec attributes it to repository
variants not present under src/. -/
def aggregateMetrics (df : List Row) (viewDate : Nat) : Nat × Nat × Nat :=
  let day := df.filter (fun r => dateEq r.start viewDate)
  ((day.filter (fun r => r.status == "Reserved")).length,
   ((day.filter (fun r => r.status == "Reserved")).map (fun r => r.pax)).sum,
   (day.filter (fun r => r.status == "Cancelled")).length)

/-- Char-level image of `joinTables`: `", "` is `',' :: ' ' :: _`. -/
def joinChars : List (List Char) → List Char
  | [] => []
  | [t] => t
  | t :: ts => t ++ ',' :: ' ' :: joinChars ts

/-- The change mapping the SAVE CHANGES loop builds when every edited id resolves
in the baseline and no id repeats: one `(id, newStatus)` pair per edited row
whose status differs from the first baseline row with the same id. -/
def changeList (df : List Row) (edited : List Row) : List (String × String) :=
  edited.filterMap (fun e =>
    match lookupStatus df e.id with
    | none => none
    | some orig => if e.status == orig then none else some (e.id, e.status))

/-- A row with its Status blanked, used to state that a sheet operation touches
nothing but the Status column. -/
def eraseStatus (r : Row) : Row := { r with status := "" }

/-- The step function of the SAVE CHANGES fold (the lambda of `diffChanges`). -/
def diffStep (df : List Row) (acc : Option (List (String × String))) (row : Row) :
    Option (List (String × String)) :=
  match acc with
  | none => none
  | some changes =>
    match lookupStatus df row.id with
    | none => none
    | some orig =>
      if row.status == orig then some changes else some (upsert changes row.id row.status)

/-! ## Concrete example rows used by the claim-level theorems -/

/-- A Reserved reservation created the evening before the viewed day whose End
reaches past the 10:00 window opening of day 1 (Start day 0 20:00, End day 1
12:00). -/
def c1row : Row := ⟨"Table 1", "Overnight", some 1200, some 2160, "Reserved", "o1", "", 2⟩

/-- A two-table booking on day 0, 12:00–14:00. -/
def c1wrow : Row := ⟨"Table 1, Table 2", "Pair", some 720, some 840, "Reserved", "p1", "", 4⟩

/-- First of two overlapping bookings on Table 1, day 0, 12:00–14:00. -/
def c2rowA : Row := ⟨"Table 1", "Alice", some 720, some 840, "Reserved", "a1", "", 2⟩

/-- Second of two overlapping bookings on Table 1, day 0, 12:00–14:00. -/
def c2rowB : Row := ⟨"Table 1", "Bob", some 720, some 840, "Reserved", "b1", "", 3⟩

/-- A reservation with an unknown status value covering (Table 3, 12:30). -/
def c3row : Row := ⟨"Table 3", "Zoe", some 720, some 840, "Walk-in", "z1", "", 2⟩

/-- A row whose Start failed to parse (`NaT`) but whose End is on day 1. -/
def c5row : Row := ⟨"Table 2", "Ghost", none, some 2100, "Reserved", "g1", "", 2⟩

/-- A row with a valid Start on day 0 whose End failed to parse (`NaT`). -/
def c5brow : Row := ⟨"Table 2", "NoEnd", some 720, none, "Reserved", "g2", "", 2⟩

/-- Baseline rows and an edited row for the reconciler scenario of §8. -/
def c6baseA : Row := ⟨"Table 1", "A", some 720, some 840, "Reserved", "a", "", 2⟩

def c6baseB : Row := ⟨"Table 2", "B", some 720, some 840, "Reserved", "b", "", 2⟩

/-- `c6baseA` with its status edited to Cancelled. -/
def c6editA : Row := ⟨"Table 1", "A", some 720, some 840, "Cancelled", "a", "", 2⟩

/-- Two sheet rows used to exercise the batch-update frame property. -/
def c8row1 : Row := ⟨"Table 1", "A", some 720, some 840, "Reserved", "a", "", 2⟩

def c8row2 : Row := ⟨"Table 2", "B", some 720, some 840, "Reserved", "b", "", 2⟩

/-- The aggregate-metrics scenario of §8: Reserved pax 2, Reserved pax 4,
Cancelled pax 3, all on day 0. -/
def c9r1 : Row := ⟨"Table 1", "R1", some 720, some 840, "Reserved", "m1", "", 2⟩

def c9r2 : Row := ⟨"Table 2", "R2", some 720, some 840, "Reserved", "m2", "", 4⟩

def c9r3 : Row := ⟨"Table 3", "C1", some 720, some 840, "Cancelled", "m3", "", 3⟩

/-- A Reserved reservation starting day 0 at 23:00 whose End (day 1, 11:00)
extends past midnight into the viewed day's window. -/
def c10row : Row := ⟨"Table 1", "Late Night", some 1380, some 2100, "Reserved", "n1", "", 4⟩

/-! ## Slot-generation lemmas -/

theorem genSlotsAux_nil {fuel cur endT : Nat} (h : ¬ cur ≤ endT) :
    genSlotsAux fuel cur endT = [] := by
  cases fuel with
  | zero => rfl
  | succ f => simp [genSlotsAux, h]

theorem genSlotsAux_eq_range (k : Nat) :
    ∀ fuel cur endT, cur + 30 * k ≤ endT → endT < cur + 30 * (k + 1) →
      endT + 1 - cur ≤ fuel →
      genSlotsAux fuel cur endT = (List.range (k + 1)).map (fun i => cur + 30 * i) := by
  induction k with
  | zero =>
    intro fuel cur endT h1 h2 hf
    match fuel, (by omega : 1 ≤ fuel) with
    | f + 1, _ =>
      have hle : cur ≤ endT := by omega
      simp only [genSlotsAux, if_pos hle]
      rw [genSlotsAux_nil (by omega)]
      simp [List.range_succ]
  | succ k ih =>
    intro fuel cur endT h1 h2 hf
    match fuel, (by omega : 1 ≤ fuel) with
    | f + 1, _ =>
      have hle : cur ≤ endT := by omega
      simp only [genSlotsAux, if_pos hle]
      rw [ih f (cur + 30) endT (by omega) (by omega) (by omega)]
      rw [List.range_succ_eq_map (k + 1)]
      simp only [List.map_cons, List.map_map, Nat.mul_zero, Nat.add_zero]
      congr 1
      apply List.map_congr_left
      intro a _
      simp [Function.comp, Nat.succ_eq_add_one]
      omega

theorem timeSlots_eq (d : Nat) :
    timeSlots d = (List.range 25).map (fun i => slotStart d + 30 * i) := by
  have h := genSlotsAux_eq_range 24 (slotEnd d + 1 - slotStart d) (slotStart d) (slotEnd d)
    (by simp [slotStart, slotEnd, minutesPerDay]) (by simp [slotStart, slotEnd, minutesPerDay])
    (Nat.le_refl _)
  simpa [timeSlots, genSlots] using h

theorem mem_timeSlots (d s : Nat) :
    s ∈ timeSlots d ↔ ∃ i, s = slotStart d + 30 * i ∧ s ≤ slotEnd d := by
  rw [timeSlots_eq]
  simp only [List.mem_map, List.mem_range]
  constructor
  · rintro ⟨i, hi, rfl⟩
    exact ⟨i, rfl, by simp [slotStart, slotEnd, minutesPerDay]; omega⟩
  · rintro ⟨i, rfl, hle⟩
    have : i < 25 := by simp [slotStart, slotEnd, minutesPerDay] at hle; omega
    exact ⟨i, this, rfl⟩

/-! ## Substring lemmas

`str.contains` on the comma-joined `Table` field agrees with membership in the
joined list, for patterns and members drawn from the fixed table catalog: no
catalog name contains a comma or starts with a space (so no match can straddle a
`", "` separator), and no catalog name occurs inside another one. -/

theorem listStartsWith_append (p s : List Char) : listStartsWith p (p ++ s) = true := by
  induction p with
  | nil => rfl
  | cons a as ih => simp [listStartsWith, ih]

theorem listHasSub_of_startsWith {p s : List Char} (h : listStartsWith p s = true) :
    listHasSub p s = true := by
  cases s with
  | nil =>
    cases p with
    | nil => rfl
    | cons a as => simp [listStartsWith] at h
  | cons b bs => simp [listHasSub, h]

theorem listHasSub_append_left {p s : List Char} (x : List Char)
    (h : listHasSub p s = true) : listHasSub p (x ++ s) = true := by
  induction x with
  | nil => simpa using h
  | cons c cs ih => simp [listHasSub, ih]

theorem listHasSub_join_of_mem {p : List Char} {l : List (List Char)} (h : p ∈ l) :
    listHasSub p (joinChars l) = true := by
  induction l with
  | nil => cases h
  | cons a tl ih =>
    cases tl with
    | nil =>
      rcases List.mem_singleton.mp h with rfl
      have := listStartsWith_append p []
      rw [List.append_nil] at this
      exact listHasSub_of_startsWith (s := joinChars [p]) this
    | cons b rest =>
      rcases List.mem_cons.mp h with rfl | hmem
      · exact listHasSub_of_startsWith (listStartsWith_append p (',' :: ' ' :: joinChars (b :: rest)))
      · have hsub := ih hmem
        have : joinChars (a :: b :: rest) = (a ++ [',', ' ']) ++ joinChars (b :: rest) := by
          simp [joinChars]
        rw [this]
        exact listHasSub_append_left _ hsub

theorem listStartsWith_append_comma {p : List Char} :
    ∀ x rest, listStartsWith p (x ++ ',' :: rest) = true →
      listStartsWith p x = true ∨ ',' ∈ p := by
  intro x
  induction x generalizing p with
  | nil =>
    intro rest h
    cases p with
    | nil => exact Or.inl rfl
    | cons c ps =>
      simp only [List.nil_append, listStartsWith, Bool.and_eq_true, beq_iff_eq] at h
      exact Or.inr (by simp [h.1])
  | cons d xs ih =>
    intro rest h
    cases p with
    | nil => exact Or.inl rfl
    | cons c ps =>
      simp only [List.cons_append, listStartsWith, Bool.and_eq_true, beq_iff_eq] at h
      rcases ih rest h.2 with h' | h'
      · exact Or.inl (by simp [listStartsWith, h.1, h'])
      · exact Or.inr (List.mem_cons_of_mem _ h')

theorem listHasSub_append_sep {p : List Char} (hc : ',' ∉ p) (hsp : p.head? ≠ some ' ') :
    ∀ a t, listHasSub p (a ++ ',' :: ' ' :: t) = true →
      listHasSub p a = true ∨ listHasSub p t = true := by
  intro a
  induction a with
  | nil =>
    intro t h
    simp only [List.nil_append, listHasSub, Bool.or_eq_true] at h
    rcases h with h | h
    · cases p with
      | nil => exact Or.inl rfl
      | cons c ps =>
        simp only [listStartsWith, Bool.and_eq_true, beq_iff_eq] at h
        exact absurd (by simp [h.1]) hc
    · rcases (by simpa [listHasSub, Bool.or_eq_true] using h) with h' | h'
      · cases p with
        | nil => exact Or.inl rfl
        | cons c ps =>
          simp only [listStartsWith, Bool.and_eq_true, beq_iff_eq] at h'
          exact absurd (by simp [h'.1]) hsp
      · exact Or.inr h'
  | cons d as ih =>
    intro t h
    simp only [List.cons_append, listHasSub, Bool.or_eq_true] at h
    rcases h with h | h
    · have h2 : listStartsWith p ((d :: as) ++ ',' :: (' ' :: t)) = true := by simpa using h
      rcases listStartsWith_append_comma _ _ h2 with h' | h'
      · exact Or.inl (listHasSub_of_startsWith h')
      · exact absurd h' hc
    · rcases ih t h with h' | h'
      · exact Or.inl (by simp [listHasSub, h'])
      · exact Or.inr h'

theorem listHasSub_join_mem {p : List Char} (hne : p ≠ []) (hc : ',' ∉ p)
    (hsp : p.head? ≠ some ' ') :
    ∀ l : List (List Char), listHasSub p (joinChars l) = true →
      ∃ a ∈ l, listHasSub p a = true := by
  intro l
  induction l with
  | nil =>
    intro h
    simp only [joinChars, listHasSub, List.isEmpty_iff] at h
    exact absurd h hne
  | cons a tl ih =>
    cases tl with
    | nil => intro h; exact ⟨a, List.mem_singleton_self a, h⟩
    | cons b rest =>
      intro h
      rw [show joinChars (a :: b :: rest) = a ++ ',' :: ' ' :: joinChars (b :: rest) from rfl] at h
      rcases listHasSub_append_sep hc hsp a _ h with h' | h'
      · exact ⟨a, List.mem_cons_self a _, h'⟩
      · rcases ih h' with ⟨x, hx, hxs⟩
        exact ⟨x, List.mem_cons_of_mem a hx, hxs⟩

/-- No catalog name occurs as a substring of a different catalog name. -/
theorem catalog_no_overlap :
    ∀ p ∈ allTables, ∀ a ∈ allTables, listHasSub p.data a.data = true → p = a := by decide

/-- Every catalog name is nonempty, comma-free, and does not start with a space. -/
theorem catalog_chars :
    ∀ p ∈ allTables, p.data ≠ [] ∧ ',' ∉ p.data ∧ p.data.head? ≠ some ' ' := by decide

theorem joinTables_data : ∀ l : List String, (joinTables l).data = joinChars (l.map String.data)
  | [] => rfl
  | [t] => rfl
  | t :: b :: ts => by
    have ih := joinTables_data (b :: ts)
    simp only [joinTables, joinChars, List.map_cons, String.data_append, ih]
    simp [show (", ").data = [',', ' '] from rfl]

/-- For a `Table` field written by `add_reservation` (a `", "`-join of catalog
names) and a catalog pattern, pandas substring containment coincides with
membership of the pattern in the joined list. -/
theorem strHasSub_join_iff {t : String} {l : List String} (ht : t ∈ allTables)
    (hl : ∀ x ∈ l, x ∈ allTables) :
    strHasSub (joinTables l) t = true ↔ t ∈ l := by
  constructor
  · intro h
    rw [strHasSub, joinTables_data] at h
    obtain ⟨hne, hc, hsp⟩ := catalog_chars t ht
    rcases listHasSub_join_mem hne hc hsp _ h with ⟨a, ha, hsub⟩
    rcases List.mem_map.mp ha with ⟨x, hx, rfl⟩
    have := catalog_no_overlap t ht x (hl x hx) hsub
    exact this ▸ hx
  · intro h
    rw [strHasSub, joinTables_data]
    exact listHasSub_join_of_mem (List.mem_map_of_mem String.data h)

/-! ## Membership lemmas for the grid and the listing -/

theorem mem_dfDay {df : List Row} {d : Nat} {r : Row} :
    r ∈ dfDay df d ↔ r ∈ df ∧ dayMask r d = true := by
  simp [dfDay, List.mem_filter]

theorem mem_resMatch {rows : List Row} {tbl : String} {s : Nat} {r : Row} :
    r ∈ resMatch rows tbl s ↔ r ∈ rows ∧ cellMatches r tbl s = true := by
  simp [resMatch, List.mem_filter]

theorem mem_insertSorted {r x : Row} {l : List Row} :
    r ∈ insertSorted x l ↔ r = x ∨ r ∈ l := by
  induction l with
  | nil => simp [insertSorted]
  | cons y ys ih =>
    by_cases h : startLe x y = true
    · simp [insertSorted, h]
    · simp only [insertSorted, if_neg h, List.mem_cons, ih]
      tauto

theorem mem_sortByStart {r : Row} {l : List Row} : r ∈ sortByStart l ↔ r ∈ l := by
  induction l with
  | nil => simp [sortByStart]
  | cons x xs ih => simp [sortByStart, mem_insertSorted, ih]

theorem mem_dfAll {df : List Row} {d : Nat} {r : Row} :
    r ∈ dfAll df d ↔ r ∈ df ∧ maskAll r d = true := by
  simp [dfAll, mem_sortByStart, List.mem_filter]

/-! ## Reconciler lemmas -/

theorem diffChanges_eq_foldl (df edited : List Row) :
    diffChanges df edited = edited.foldl (diffStep df) (some []) := rfl

theorem foldl_diffStep_none (df : List Row) (edited : List Row) :
    edited.foldl (diffStep df) none = none := by
  induction edited with
  | nil => rfl
  | cons e tl ih => simpa [diffStep] using ih

theorem upsert_of_not_mem {m : List (String × String)} {k : String}
    (h : ∀ p ∈ m, p.1 ≠ k) (v : String) : upsert m k v = m ++ [(k, v)] := by
  rw [upsert, if_neg]
  simp only [List.any_eq_true, beq_iff_eq, not_exists, not_and]
  exact fun p hp => h p hp

theorem foldl_diffStep_some (df : List Row) :
    ∀ (edited : List Row) (m : List (String × String)),
      (∀ e ∈ edited, (lookupStatus df e.id).isSome) →
      (∀ e ∈ edited, ∀ p ∈ m, p.1 ≠ e.id) →
      (edited.map (fun r => r.id)).Nodup →
      edited.foldl (diffStep df) (some m) = some (m ++ changeList df edited) := by
  intro edited
  induction edited with
  | nil => intro m _ _ _; simp [changeList]
  | cons e tl ih =>
    intro m h1 h2 h3
    obtain ⟨orig, horig⟩ := Option.isSome_iff_exists.mp (h1 e (List.mem_cons_self e tl))
    simp only [List.map_cons, List.nodup_cons, List.mem_map] at h3
    by_cases hst : e.status = orig
    · have step : diffStep df (some m) e = some m := by
        simp [diffStep, horig, hst]
      rw [List.foldl_cons, step,
        ih m (fun x hx => h1 x (List.mem_cons_of_mem e hx))
          (fun x hx => h2 x (List.mem_cons_of_mem e hx)) h3.2]
      have : changeList df (e :: tl) = changeList df tl := by
        simp [changeList, List.filterMap_cons, horig, hst]
      rw [this]
    · have hm : ∀ p ∈ m, p.1 ≠ e.id := h2 e (List.mem_cons_self e tl)
      have step : diffStep df (some m) e = some (m ++ [(e.id, e.status)]) := by
        simp only [diffStep, horig]
        rw [if_neg (by simpa using hst), upsert_of_not_mem hm]
      rw [List.foldl_cons, step,
        ih (m ++ [(e.id, e.status)]) (fun x hx => h1 x (List.mem_cons_of_mem e hx))
          (fun x hx p hp => by
            rcases List.mem_append.mp hp with hp' | hp'
            · exact h2 x (List.mem_cons_of_mem e hx) p hp'
            · rcases List.mem_singleton.mp hp' with rfl
              intro hcontra
              exact h3.1 ⟨x, hx, by simpa using hcontra.symm⟩)
          h3.2]
      have : changeList df (e :: tl) = (e.id, e.status) :: changeList df tl := by
        simp only [changeList, List.filterMap_cons, horig]
        rw [if_neg (by simpa using hst)]
      rw [this]
      simp

theorem diffChanges_eq_changeList {df edited : List Row}
    (h1 : ∀ e ∈ edited, (lookupStatus df e.id).isSome)
    (h3 : (edited.map (fun r => r.id)).Nodup) :
    diffChanges df edited = some (changeList df edited) := by
  rw [diffChanges_eq_foldl, foldl_diffStep_some df edited [] h1 (by simp) h3]
  simp

theorem mem_changeList {df edited : List Row} {k v : String}
    (h1 : ∀ e ∈ edited, (lookupStatus df e.id).isSome) :
    (k, v) ∈ changeList df edited ↔
      ∃ e ∈ edited, e.id = k ∧ e.status = v ∧ lookupStatus df k ≠ some v := by
  simp only [changeList, List.mem_filterMap]
  constructor
  · rintro ⟨e, he, hf⟩
    rcases horig : lookupStatus df e.id with _ | orig
    · simp [horig] at hf
    · by_cases hst : e.status = orig
      · simp [horig, hst] at hf
      · simp only [horig] at hf
        rw [if_neg (by simpa using hst)] at hf
        injection hf with hf'
        obtain ⟨hk, hv⟩ := Prod.mk.injEq .. |>.mp hf'
        subst hk; subst hv
        refine ⟨e, he, rfl, rfl, ?_⟩
        rw [horig]
        intro hcontra
        injection hcontra with h
        exact hst h.symm
  · rintro ⟨e, he, rfl, rfl, hne⟩
    refine ⟨e, he, ?_⟩
    rcases horig : lookupStatus df e.id with _ | orig
    · exact absurd (Option.isSome_iff_exists.mp (h1 e he)).choose_spec (by simp [horig])
    · simp only
      rw [if_neg]
      simp only [beq_iff_eq]
      intro hcontra
      exact hne (by rw [horig, hcontra])

theorem find?_self_of_nodup {b : List Row} {r : Row}
    (hnd : (b.map (fun x => x.id)).Nodup) (hr : r ∈ b) :
    b.find? (fun x => x.id == r.id) = some r := by
  induction b with
  | nil => cases hr
  | cons x xs ih =>
    simp only [List.map_cons, List.nodup_cons, List.mem_map] at hnd
    rcases List.mem_cons.mp hr with rfl | hr'
    · exact List.find?_cons_of_pos _ (by simp)
    · have hne : x.id ≠ r.id := fun h => hnd.1 ⟨r, hr', h.symm⟩
      rw [List.find?_cons_of_neg _ (by simpa using hne)]
      exact ih hnd.2 hr'

theorem changeList_self {b : List Row} (hnd : (b.map (fun x => x.id)).Nodup) :
    changeList b b = [] := by
  rw [changeList, List.filterMap_eq_nil_iff]
  intro e he
  have hlk : lookupStatus b e.id = some e.status := by
    simp [lookupStatus, find?_self_of_nodup hnd he]
  simp [hlk]

theorem foldl_diffStep_none_iff (df : List Row) :
    ∀ (edited : List Row) (m : List (String × String)),
      (edited.foldl (diffStep df) (some m) = none ↔ ∃ e ∈ edited, lookupStatus df e.id = none) := by
  intro edited
  induction edited with
  | nil => intro m; simp
  | cons e tl ih =>
    intro m
    rcases horig : lookupStatus df e.id with _ | orig
    · have step : diffStep df (some m) e = none := by simp [diffStep, horig]
      rw [List.foldl_cons, step, foldl_diffStep_none]
      simp only [eq_self_iff_true, true_iff]
      exact ⟨e, List.mem_cons_self e tl, horig⟩
    · have step : ∃ m', diffStep df (some m) e = some m' := by
        by_cases hst : e.status = orig
        · exact ⟨m, by simp [diffStep, horig, hst]⟩
        · refine ⟨upsert m e.id e.status, ?_⟩
          simp only [diffStep, horig]
          rw [if_neg (by simpa using hst)]
      obtain ⟨m', hm'⟩ := step
      rw [List.foldl_cons, hm', ih m']
      constructor
      · rintro ⟨x, hx, h⟩
        exact ⟨x, List.mem_cons_of_mem e hx, h⟩
      · rintro ⟨x, hx, h⟩
        rcases List.mem_cons.mp hx with rfl | hx'
        · rw [horig] at h; cases h
        · exact ⟨x, hx', h⟩

theorem diffChanges_none_iff (df edited : List Row) :
    diffChanges df edited = none ↔ ∃ e ∈ edited, lookupStatus df e.id = none := by
  rw [diffChanges_eq_foldl]
  exact foldl_diffStep_none_iff df edited []

/-! ## Batch-update lemmas -/

theorem set_of_getElem?_eq {α : Type} {l : List α} {i : Nat} {a : α}
    (h : l[i]? = some a) : l.set i a = l := by
  induction l generalizing i with
  | nil => rfl
  | cons x xs ih =>
    cases i with
    | zero =>
      rw [List.getElem?_cons_zero] at h
      injection h with h
      rw [List.set_cons_zero, h]
    | succ n =>
      rw [List.set_cons_succ, ih (by simpa using h)]

theorem map_eraseStatus_setStatusAt (sheet : List Row) (i : Nat) (v : String) :
    (setStatusAt sheet i v).map eraseStatus = sheet.map eraseStatus := by
  rw [setStatusAt]
  cases h : sheet[i]? with
  | none => rfl
  | some r =>
    rw [List.map_set]
    have herase : eraseStatus { r with status := v } = eraseStatus r := rfl
    rw [herase]
    apply set_of_getElem?_eq
    rw [List.getElem?_map, h]
    rfl

theorem map_eraseStatus_foldl_setStatusAt (ups : List (Nat × String)) :
    ∀ sh : List Row,
      ((ups.foldl (fun s u => setStatusAt s u.1 u.2) sh).map eraseStatus) = sh.map eraseStatus := by
  induction ups with
  | nil => intro sh; rfl
  | cons u us ih =>
    intro sh
    rw [List.foldl_cons, ih, map_eraseStatus_setStatusAt]

theorem getElem?_setStatusAt_ne {sheet : List Row} {i j : Nat} (v : String) (h : i ≠ j) :
    (setStatusAt sheet i v)[j]? = sheet[j]? := by
  rw [setStatusAt]
  cases hg : sheet[i]? with
  | none => rfl
  | some r => exact List.getElem?_set_ne h

theorem getElem?_foldl_setStatusAt (ups : List (Nat × String)) :
    ∀ (sh : List Row) (j : Nat), (∀ u ∈ ups, u.1 ≠ j) →
      (ups.foldl (fun s u => setStatusAt s u.1 u.2) sh)[j]? = sh[j]? := by
  induction ups with
  | nil => intro sh j _; rfl
  | cons u us ih =>
    intro sh j h
    rw [List.foldl_cons, ih _ j (fun x hx => h x (List.mem_cons_of_mem u hx)),
      getElem?_setStatusAt_ne u.2 (h u (List.mem_cons_self u us))]

theorem idIndexOf_getElem? : ∀ (l : List String) (k : String) (i : Nat),
    idIndexOf l k = some i → l[i]? = some k := by
  intro l
  induction l with
  | nil => intro k i h; cases h
  | cons x xs ih =>
    intro k i h
    rw [idIndexOf] at h
    by_cases hx : x == k
    · rw [if_pos hx] at h
      injection h with h
      subst h
      simpa using (beq_iff_eq.mp hx)
    · rw [if_neg hx] at h
      cases hidx : idIndexOf xs k with
      | none => rw [hidx] at h; cases h
      | some j =>
        rw [hidx] at h
        injection h with h
        subst h
        simpa using ih k j hidx

theorem diffStep_proj (df : List Row) (acc : Option (List (String × String))) {r1 r2 : Row}
    (hid : r1.id = r2.id) (hst : r1.status = r2.status) :
    diffStep df acc r1 = diffStep df acc r2 := by
  simp only [diffStep, hid, hst]

theorem foldl_diffStep_proj (df : List Row) :
    ∀ (e1 e2 : List Row) (acc : Option (List (String × String))),
      e1.map (fun r => (r.id, r.status)) = e2.map (fun r => (r.id, r.status)) →
      e1.foldl (diffStep df) acc = e2.foldl (diffStep df) acc := by
  intro e1
  induction e1 with
  | nil =>
    intro e2 acc h
    cases e2 with
    | nil => rfl
    | cons y ys => cases h
  | cons x xs ih =>
    intro e2 acc h
    cases e2 with
    | nil => cases h
    | cons y ys =>
      simp only [List.map_cons, List.cons.injEq, Prod.mk.injEq] at h
      rw [List.foldl_cons, List.foldl_cons, diffStep_proj df acc h.1.1 h.1.2,
        ih ys _ (by simpa using h.2)]

/-! ## Claim-level theorems -/

/-- C1 (amended): for a catalog table `tbl`, a slot `s` of the viewed day `d`,
and a reservation `r` of the loaded data whose Table field is the `", "`-join of
catalog tables (as `add_reservation` writes it), the schedule computation counts
`r` as covering cell `(tbl, s)` iff `tbl` is a member of `r`'s table list, `r`'s
status is not `"Cancelled"`, `r`'s Start falls on the viewed day, and
`r.start ≤ s < r.end`; moreover, when `r` is the first such match in stable
input order the rendered cell is booked and carries `r`'s customer name and
party size. -/
theorem C1_cell_occupancy (df : List Row) (d : Nat) (r : Row) (tbl : String) (s : Nat)
    (hr : r ∈ df) (_hs : s ∈ timeSlots d) (tbls : List String)
    (htf : r.table = joinTables tbls) (hwf : ∀ x ∈ tbls, x ∈ allTables)
    (ht : tbl ∈ allTables) :
    (r ∈ resMatch (dfDay df d) tbl s ↔
      tbl ∈ tbls ∧ r.status ≠ "Cancelled" ∧ dateEq r.start d = true ∧
        dtLe r.start s = true ∧ dtGt r.endTime s = true)
  ∧ (∀ rest, resMatch (dfDay df d) tbl s = r :: rest →
      cellOf df d tbl s = (1, hoverText r)) := by
  constructor
  · rw [mem_resMatch, mem_dfDay]
    constructor
    · rintro ⟨⟨_, hmask⟩, hcell⟩
      rw [dayMask, Bool.and_eq_true] at hmask
      simp only [cellMatches, Bool.and_eq_true] at hcell
      refine ⟨?_, by simpa using hmask.2, hmask.1, hcell.1.2, hcell.2⟩
      rw [← strHasSub_join_iff ht hwf, ← htf]
      exact hcell.1.1
    · rintro ⟨htbl, hst, hdate, hle, hgt⟩
      refine ⟨⟨hr, ?_⟩, ?_⟩
      · rw [dayMask, hdate]
        simpa using hst
      · simp only [cellMatches, Bool.and_eq_true]
        exact ⟨⟨htf ▸ (strHasSub_join_iff ht hwf).mpr htbl, hle⟩, hgt⟩
  · intro rest hmatch
    rw [cellOf, hmatch]

/-- C1 counterexample: the claim as stated omits the day filter.  `c1row` starts
day 0 at 20:00 and ends day 1 at 12:00; at slot 10:00 of viewed day 1 it
satisfies the claim's right-hand side (table matches, not cancelled,
start ≤ slot < end) yet the engine never marks the cell with it, because the
day mask keeps only rows whose Start date equals the viewed day. -/
theorem C1_counterexample :
    c1row.table = joinTables ["Table 1"]
  ∧ (2040 : Nat) ∈ timeSlots 1
  ∧ ¬(c1row ∈ resMatch (dfDay [c1row] 1) "Table 1" 2040 ↔
      "Table 1" ∈ ["Table 1"] ∧ c1row.status ≠ "Cancelled" ∧
        dtLe c1row.start 2040 = true ∧ dtGt c1row.endTime 2040 = true) := by
  refine ⟨rfl, ?_, by decide⟩
  rw [timeSlots_eq]
  decide

/-- C1 witness: a two-table booking occupies the 12:00 slot of day 0 on
Table 2, and the cell carries its customer name and party size. -/
theorem C1_witness :
    c1wrow ∈ resMatch (dfDay [c1wrow] 0) "Table 2" 720
  ∧ cellOf [c1wrow] 0 "Table 2" 720 = (1, hoverText c1wrow) := by
  have h := C1_cell_occupancy [c1wrow] 0 c1wrow "Table 2" 720 (by decide)
    (by rw [timeSlots_eq]; decide) ["Table 1", "Table 2"] rfl (by decide) (by decide)
  exact ⟨h.1.mpr (by decide), h.2 [] (by decide)⟩

/-- C2 (amended): when several reservations match a cell, the engine picks the
first one in stable input order as the sole occupant: if no earlier row of the
input matches the cell and `r` does, the cell shows `r`.  No diagnostic count of
additional overlapping reservations is surfaced (see the counterexample). -/
theorem C2_first_match (df pre post : List Row) (d : Nat) (tbl : String) (s : Nat) (r : Row)
    (hdf : df = pre ++ r :: post)
    (hpre : ∀ q ∈ pre, ¬(dayMask q d = true ∧ cellMatches q tbl s = true))
    (hmask : dayMask r d = true) (hcell : cellMatches r tbl s = true) :
    cellOf df d tbl s = (1, hoverText r) := by
  subst hdf
  have h1 : dfDay (pre ++ r :: post) d = dfDay pre d ++ r :: dfDay post d := by
    simp only [dfDay, List.filter_append, List.filter_cons, hmask, if_true]
  have h3 : List.filter (fun q => cellMatches q tbl s) (dfDay pre d) = [] := by
    rw [List.filter_eq_nil_iff]
    intro q hq hc
    exact hpre q (mem_dfDay.mp hq).1 ⟨(mem_dfDay.mp hq).2, hc⟩
  have h2 : resMatch (dfDay (pre ++ r :: post) d) tbl s
      = r :: resMatch (dfDay post d) tbl s := by
    rw [h1]
    simp only [resMatch, List.filter_append, List.filter_cons, hcell, if_true, h3,
      List.nil_append]
  rw [cellOf, h2]

/-- C2 counterexample: two active reservations (Alice first, Bob second) both
cover cell (Table 1, 12:00) of day 0, yet the entire computed schedule is
identical to the one computed from Alice's reservation alone: the engine
surfaces no diagnostic count of additional overlapping reservations anywhere in
its output — the conflict is silently dropped. -/
theorem C2_counterexample :
    (resMatch (dfDay [c2rowA, c2rowB] 0) "Table 1" 720).length = 2
  ∧ scheduleGrid [c2rowA, c2rowB] 0 = scheduleGrid [c2rowA] 0 := by
  constructor
  · decide
  · simp only [scheduleGrid, timeSlots_eq]
    decide

/-- C2 witness: with Alice's and Bob's overlapping bookings in input order, the
12:30 cell of Table 1 shows Alice. -/
theorem C2_witness : cellOf [c2rowA, c2rowB] 0 "Table 1" 750 = (1, hoverText c2rowA) :=
  C2_first_match [c2rowA, c2rowB] [] [c2rowB] 0 "Table 1" 750 c2rowA rfl (by simp)
    (by decide) (by decide)

/-- C3: no schedule cell is ever covered by a reservation whose status is
exactly `"Cancelled"`, and the exclusion tests nothing but that exact string:
a reservation with any other status value — unknown values included — that
starts on the viewed day and matches the cell is counted as occupying it. -/
theorem C3_cancelled_exact :
    (∀ (df : List Row) (d : Nat) (tbl : String) (s : Nat) (r : Row),
        r ∈ resMatch (dfDay df d) tbl s → r.status ≠ "Cancelled")
  ∧ (∀ (df : List Row) (d : Nat) (tbl : String) (s : Nat) (r : Row),
        r ∈ df → r.status ≠ "Cancelled" → dateEq r.start d = true →
        cellMatches r tbl s = true → r ∈ resMatch (dfDay df d) tbl s) := by
  constructor
  · intro df d tbl s r hr
    have hmask := (mem_dfDay.mp (mem_resMatch.mp hr).1).2
    rw [dayMask, Bool.and_eq_true] at hmask
    simpa using hmask.2
  · intro df d tbl s r hdf hst hdate hcell
    refine mem_resMatch.mpr ⟨mem_dfDay.mpr ⟨hdf, ?_⟩, hcell⟩
    rw [dayMask, hdate]
    simpa using hst

/-- C3 witness: a reservation with the unknown status `"Walk-in"` is treated as
active and occupies (Table 3, 12:30) of day 0. -/
theorem C3_witness : c3row ∈ resMatch (dfDay [c3row] 0) "Table 3" 750 :=
  C3_cancelled_exact.2 [c3row] 0 "Table 3" 750 c3row (by decide) (by decide) (by decide)
    (by decide)

/-- C4: the slot sequence is the ordered list from `windowStart` (10:00 of the
viewed day) stepping by 30 minutes, containing exactly the step timestamps up to
and including `windowEnd` (22:00): explicitly the 25 slots
`slotStart d + 30*i` for `i < 25`, strictly ordered, with the endpoint
included. -/
theorem C4_slot_sequence (d : Nat) :
    timeSlots d = (List.range 25).map (fun i => slotStart d + 30 * i)
  ∧ (∀ s, s ∈ timeSlots d ↔ ∃ i, s = slotStart d + 30 * i ∧ s ≤ slotEnd d)
  ∧ slotEnd d ∈ timeSlots d
  ∧ (timeSlots d).length = 25
  ∧ List.Sorted (fun a b => a < b) (timeSlots d) := by
  refine ⟨timeSlots_eq d, mem_timeSlots d, ?_, ?_, ?_⟩
  · exact (mem_timeSlots d _).mpr ⟨24, by simp [slotStart, slotEnd, minutesPerDay], Nat.le_refl _⟩
  · rw [timeSlots_eq]
    simp
  · rw [timeSlots_eq]
    rw [List.Sorted, List.pairwise_map]
    exact (List.pairwise_lt_range 25).imp (fun h => by omega)

/-- C5 (amended): a record with an unparseable Start or End is kept in the
loaded data with an unknown (`none`) time and is excluded from every
slot-overlap computation.  A record whose End alone is unparseable is still
listed on the day of its Start; but a record whose Start is unparseable appears
in no day's listing (the listing mask compares the Start date with the viewed
day), contrary to the claim as stated. -/
theorem C5_unknown_time (df : List Row) (r : Row) (hr : r ∈ df) :
    ((r.start = none ∨ r.endTime = none) → ∀ d tbl s, r ∉ resMatch (dfDay df d) tbl s)
  ∧ (r.start = none → ∀ d, r ∉ dfAll df d)
  ∧ (∀ ts, r.start = some ts → r ∈ dfAll df (dateOf ts)) := by
  refine ⟨?_, ?_, ?_⟩
  · intro h d tbl s hmem
    rcases h with h | h
    · have hmask := (mem_dfDay.mp (mem_resMatch.mp hmem).1).2
      rw [dayMask, h] at hmask
      simp [dateEq] at hmask
    · have hcell := (mem_resMatch.mp hmem).2
      rw [cellMatches, h] at hcell
      simp [dtGt] at hcell
  · intro h d hmem
    have hmask := (mem_dfAll.mp hmem).2
    rw [maskAll, h] at hmask
    simp [dateEq] at hmask
  · intro ts hts
    refine mem_dfAll.mpr ⟨hr, ?_⟩
    rw [maskAll, hts]
    simp [dateEq]

/-- C5 counterexample: `c5row`'s Start failed to parse (its End is on day 1).
The row is retained in the data, but it is not included in the listing of day 1
(nor of day 0): the claim's "still included in the day's reservation listing"
fails for Start-parse failures. -/
theorem C5_counterexample :
    c5row ∈ [c5row] ∧ c5row ∉ dfAll [c5row] 0 ∧ c5row ∉ dfAll [c5row] 1 := by
  exact ⟨by decide, by decide, by decide⟩

/-- C5 witness: a row with a valid Start on day 0 and an unparseable End is
excluded from the schedule computation but included in day 0's listing. -/
theorem C5_witness :
    c5brow ∉ resMatch (dfDay [c5brow] 0) "Table 2" 720 ∧ c5brow ∈ dfAll [c5brow] 0 :=
  ⟨(C5_unknown_time [c5brow] c5brow (by decide)).1 (Or.inr rfl) 0 "Table 2" 720,
   (C5_unknown_time [c5brow] c5brow (by decide)).2.2 720 rfl⟩

/-- C6: when every edited id resolves in the baseline and ids are unique, the
diff yields exactly one mapping entry per id whose edited status differs from
the baseline status (matched by id) and nothing else; `diff(b, b)` is the empty
mapping; and the §8 scenario (baseline a:Reserved, b:Reserved; edited
a:Cancelled, b:Reserved) yields exactly `{a: Cancelled}`. -/
theorem C6_diff_exact (baseline edited : List Row)
    (h1 : ∀ e ∈ edited, (lookupStatus baseline e.id).isSome)
    (h2 : (edited.map (fun r => r.id)).Nodup) :
    (∃ m, diffChanges baseline edited = some m ∧
        ∀ k v, ((k, v) ∈ m ↔
          ∃ e ∈ edited, e.id = k ∧ e.status = v ∧ lookupStatus baseline k ≠ some v))
  ∧ (∀ b : List Row, (b.map (fun r => r.id)).Nodup → diffChanges b b = some [])
  ∧ diffChanges [c6baseA, c6baseB] [c6editA, c6baseB] = some [("a", "Cancelled")] := by
  refine ⟨⟨changeList baseline edited, diffChanges_eq_changeList h1 h2,
    fun k v => mem_changeList h1⟩, ?_, by decide⟩
  intro b hb
  rw [diffChanges_eq_changeList
      (fun e he => by simp [lookupStatus, find?_self_of_nodup hb he]) hb,
    changeList_self hb]

/-- C6 witness: the §8 two-row scenario, with both hypotheses discharged
concretely. -/
theorem C6_witness : diffChanges [c6baseA, c6baseB] [c6editA, c6baseB]
    = some [("a", "Cancelled")] :=
  (C6_diff_exact [c6baseA, c6baseB] [c6editA, c6baseB] (by decide) (by decide)).2.2

/-- C7: the SAVE CHANGES reconciliation computation fails (the baseline lookup
raises, surfacing the error to the caller) exactly when some edited row's id has
no match in the baseline; it never silently succeeds in that situation, and it
never fails otherwise. -/
theorem C7_missing_id_fails (baseline edited : List Row) :
    diffChanges baseline edited = none ↔ ∃ e ∈ edited, ∀ b ∈ baseline, b.id ≠ e.id := by
  rw [diffChanges_none_iff]
  apply exists_congr
  intro e
  apply and_congr_right
  intro _
  simp [lookupStatus, List.find?_eq_none]

/-- C8: the persisted batch update touches only the Status column — blanking
every row's status on both sides yields the same sheet, so all other fields of
every record are unchanged — and every record whose id is not among the change
keys is entirely unchanged; moreover the diff reads nothing but id and status
from the edited rows, so edits to other fields never influence the result. -/
theorem C8_only_status (sheet : List Row) (changes : List (String × String)) :
    (update_status_batch sheet changes).map eraseStatus = sheet.map eraseStatus
  ∧ (∀ (i : Nat) (r : Row), sheet[i]? = some r → r.id ∉ changes.map Prod.fst →
      (update_status_batch sheet changes)[i]? = some r)
  ∧ (∀ (baseline e1 e2 : List Row),
      e1.map (fun r => (r.id, r.status)) = e2.map (fun r => (r.id, r.status)) →
      diffChanges baseline e1 = diffChanges baseline e2) := by
  refine ⟨?_, ?_, ?_⟩
  · simp only [update_status_batch]
    exact map_eraseStatus_foldl_setStatusAt _ _
  · intro i r hir hnot
    simp only [update_status_batch]
    rw [getElem?_foldl_setStatusAt]
    · exact hir
    · rintro u hu
      rcases List.mem_filterMap.mp hu with ⟨c, hc, hfc⟩
      rcases hidx : idIndexOf (sheet.map (fun x => x.id)) c.1 with _ | j
      · rw [hidx] at hfc
        cases hfc
      · rw [hidx] at hfc
        injection hfc with hfc
        subst hfc
        intro hji
        have hji' : j = i := by simpa using hji
        rw [hji'] at hidx
        have hgot := idIndexOf_getElem? _ _ _ hidx
        rw [List.getElem?_map, hir] at hgot
        simp only [Option.map_some'] at hgot
        injection hgot with hgot
        exact hnot (hgot ▸ List.mem_map_of_mem Prod.fst hc)
  · intro baseline e1 e2 h
    rw [diffChanges_eq_foldl, diffChanges_eq_foldl]
    exact foldl_diffStep_proj baseline e1 e2 _ h

/-- C8 witness: cancelling id `a` leaves the row of id `b` untouched. -/
theorem C8_witness :
    (update_status_batch [c8row1, c8row2] [("a", "Cancelled")])[1]? = some c8row2 :=
  (C8_only_status [c8row1, c8row2] [("a", "Cancelled")]).2.1 1 c8row2 (by decide) (by decide)

/-- C9: the aggregate metrics triple counts the day's Reserved reservations,
sums their party sizes, and counts the day's Cancelled reservations; the §8
scenario `[Reserved pax=2, Reserved pax=4, Cancelled pax=3]` yields
`(2, 6, 1)`. -/
theorem C9_metrics :
    (∀ (df : List Row) (d : Nat),
        (aggregateMetrics df d).1
            = df.countP (fun r => dateEq r.start d && r.status == "Reserved")
      ∧ (aggregateMetrics df d).2.2
            = df.countP (fun r => dateEq r.start d && r.status == "Cancelled")
      ∧ (aggregateMetrics df d).2.1
            = ((df.filter (fun r => dateEq r.start d && r.status == "Reserved")).map
                (fun r => r.pax)).sum)
  ∧ aggregateMetrics [c9r1, c9r2, c9r3] 0 = (2, 6, 1) := by
  have hcomm : ∀ (p q : Row → Bool) (l : List Row),
      l.filter (fun a => p a && q a) = l.filter (fun a => q a && p a) :=
    fun p q l => List.filter_congr (fun a _ => by rw [Bool.and_comm])
  refine ⟨?_, by decide⟩
  intro df d
  refine ⟨?_, ?_, ?_⟩
  · simp only [aggregateMetrics, List.countP_eq_length_filter, List.filter_filter]
    rw [hcomm]
  · simp only [aggregateMetrics, List.countP_eq_length_filter, List.filter_filter]
    rw [hcomm]
  · simp only [aggregateMetrics, List.filter_filter]
    rw [hcomm]

/-- C10: membership of a reservation in a viewed day — for the schedule grid and
for the status-manager listing — is decided solely by the calendar date of its
Start: a reservation starting on an earlier day occupies no cell of the viewed
day and is absent from the viewed day's listing, regardless of how far its End
extends past midnight. -/
theorem C10_start_date_decides (df : List Row) (d : Nat) (r : Row) (ts : Nat)
    (hs : r.start = some ts) (hd : dateOf ts < d) :
    (∀ tbl s, r ∉ resMatch (dfDay df d) tbl s) ∧ r ∉ dfAll df d := by
  have hdate : dateEq r.start d = false := by
    rw [hs]
    simp only [dateEq, beq_eq_false_iff_ne, ne_eq]
    omega
  constructor
  · intro tbl s hmem
    have hmask := (mem_dfDay.mp (mem_resMatch.mp hmem).1).2
    rw [dayMask, hdate] at hmask
    simp at hmask
  · intro hmem
    have hmask := (mem_dfAll.mp hmem).2
    rw [maskAll] at hmask
    rw [hdate] at hmask
    cases hmask

/-- C10 witness: a reservation from day 0, 23:00 whose End (day 1, 11:00) lies
inside day 1's window neither occupies day 1's 10:00 slot nor appears in day 1's
listing. -/
theorem C10_witness :
    c10row ∉ resMatch (dfDay [c10row] 1) "Table 1" 2040 ∧ c10row ∉ dfAll [c10row] 1 :=
  ⟨(C10_start_date_decides [c10row] 1 c10row 1380 rfl (by decide)).1 "Table 1" 2040,
   (C10_start_date_decides [c10row] 1 c10row 1380 rfl (by decide)).2⟩
